import Mathlib

/-!
Shallow embedding of the core of the `loxide` Lox implementation: the
tree-walking interpreter (crate under `src/`) and the bytecode compiler
plus stack VM (crate under `bytecode/`), with theorems checking the
natural-language specification against the code.  Every definition
mirrors a named item of the Rust source; its doc comment names the file
and item it embeds.
-/

namespace Loxide

namespace TW

/-- Handle standing for a `Box<dyn Callable>` trait object
(`src/callable.rs`).  The three concrete callables of the tree walker
are a user function (`src/function.rs`), a class object (`src/class.rs`)
and the native clock (`src/clock.rs`); their payloads are reduced to the
display name, which is all the claims inspect through a `Value`. -/
inductive CallableRef where
  | function (name : String)
  | classObj (name : String)
  | native
deriving DecidableEq

/-- Value from `src/value.rs` (the tree-walk revision, which also has an
`Instance` variant).  The `Number(f64)` payload is modelled with `Int`:
no claim below depends on IEEE-754 arithmetic.  An
`Instance(Rc<RefCell<LoxInstance>>)` is modelled by the `Rc` identity
(a `Nat`) together with the name of the instance class. -/
inductive Value where
  | boolean (b : Bool)
  | callable (c : CallableRef)
  | inst (id : Nat) (className : String)
  | nil
  | number (n : Int)
  | string (s : String)
deriving DecidableEq

/-- Function `is_truthy` from `src/interpreter.rs`: `Nil` and `false`
are falsey, everything else is truthy. -/
def is_truthy : Value → Bool
  | .nil => false
  | .boolean b => b
  | _ => true

/-- Enum `interpreter::Error`: a runtime error carrying message and
line, or the non-local `Return { value }` control carrier. -/
inductive Error where
  | runtime (message : String) (line : Nat)
  | ret (value : Value)
deriving DecidableEq

/-- Display of `interpreter::Error::Runtime`, from the `thiserror`
attribute in `src/interpreter.rs` lines 11-18: the format string is
`"{message}\n[line {line}]"`. -/
def Error.displayRuntime (message : String) (line : Nat) : String :=
  message ++ "\n[line " ++ toString line ++ "]"

/-- Field `values: HashMap<String, Value>` of an `Environment`
(`src/interpreter.rs`), rendered as an association list in which
`define` and `assign` prepend, so the first hit of `lookup` is the most
recently written binding. -/
abbrev Frame := List (String × Value)

/-- Environment chain: the head is the current environment's own frame,
the tail is its `enclosing` chain.  A real `Environment` always owns a
frame, so chains of interest are nonempty; `[]` only plays the role of
the missing `enclosing` terminator inside the operations below. -/
abbrev Env := List Frame

/-- Access to the `enclosing: Option<Rc<RefCell<Environment>>>` field:
`none` when the chain has no enclosing environment left. -/
def enclosing : Env → Option Env
  | [] => none
  | [_] => none
  | _ :: rest => some rest

/-- Constructor `Environment::wrap`: a fresh empty frame whose
`enclosing` is the given chain. -/
def wrap (enclosingEnv : Env) : Env := [] :: enclosingEnv

/-- Method `Environment::define`: insert into the current frame. -/
def define (env : Env) (lexeme : String) (value : Value) : Env :=
  match env with
  | [] => []
  | f :: rest => ((lexeme, value) :: f) :: rest

/-- Loop `for _ in 1..distance` inside `Environment::ancestor`: follow
`enclosing` the given number of further times, `none` where the source
`expect("must have an ancestor")` would panic. -/
def ancestorLoop : Env → Nat → Option Env
  | env, 0 => some env
  | env, n + 1 =>
    match enclosing env with
    | none => none
    | some e => ancestorLoop e n

/-- Method `Environment::ancestor` (`src/interpreter.rs` lines 40-52):
start at `enclosing` (one hop) and follow `enclosing` another
`distance - 1` times; so for `distance ≥ 1` it reaches the environment
`distance` hops up the chain. -/
def ancestor (env : Env) (distance : Nat) : Option Env :=
  match enclosing env with
  | none => none
  | some e => ancestorLoop e (distance - 1)

/-- Method `Environment::get` (`src/interpreter.rs` lines 81-96): read
the own frame, else recurse through `enclosing`, else a runtime error
`Undefined variable 'NAME'.` at the token's line. -/
def get (env : Env) (lexeme : String) (line : Nat) : Except Error Value :=
  match env with
  | [] => .error (.runtime ("Undefined variable \x27" ++ lexeme ++ "\x27.") line)
  | f :: rest =>
    match f.lookup lexeme with
    | some v => .ok v
    | none => get rest lexeme line

/-- Method `Environment::get_at` (`src/interpreter.rs` lines 98-104):
distance `0` reads through `get` on the chain itself, otherwise through
`get` on the ancestor at that distance.  The outer `Option` is `none`
exactly where `ancestor` would panic. -/
def get_at (env : Env) (distance : Nat) (lexeme : String) (line : Nat) :
    Option (Except Error Value) :=
  if distance = 0 then some (get env lexeme line)
  else (ancestor env distance).map (fun a => get a lexeme line)

/-- Method `Environment::assign` (`src/interpreter.rs` lines 54-71):
overwrite the binding in the nearest frame that already contains the
name, else a runtime error.  The returned chain is the updated one (the
source mutates in place through `RefCell`). -/
def assign (env : Env) (lexeme : String) (value : Value) (line : Nat) :
    Except Error Env :=
  match env with
  | [] => .error (.runtime ("Undefined variable \x27" ++ lexeme ++ "\x27.") line)
  | f :: rest =>
    if (f.lookup lexeme).isSome then .ok (((lexeme, value) :: f) :: rest)
    else
      match assign rest lexeme value line with
      | .ok rest2 => .ok (f :: rest2)
      | .error e => .error e

/-- Method `Environment::assign_at` (`src/interpreter.rs` lines 73-79):
distance `0` assigns on the chain itself, otherwise on the ancestor at
that distance.  The source mutates the shared ancestor through its
`Rc<RefCell<..>>` handle; functionally the first `distance` frames are
kept and the updated suffix is re-attached. -/
def assign_at (env : Env) (distance : Nat) (lexeme : String) (value : Value)
    (line : Nat) : Option (Except Error Env) :=
  if distance = 0 then some (assign env lexeme value line)
  else
    (ancestor env distance).map (fun a =>
      match assign a lexeme value line with
      | .ok a2 => .ok (env.take distance ++ a2)
      | .error e => .error e)

/-- Method `Interpreter::lookup_variable` (`src/interpreter.rs` lines
168-175): `resolvedDepth` is the side-table entry
`self.locals.get(expr)`; when present the read goes through `get_at` on
the current environment, when absent through `get` on `globals`. -/
def lookup_variable (environment globalsEnv : Env) (resolvedDepth : Option Nat)
    (lexeme : String) (line : Nat) : Option (Except Error Value) :=
  match resolvedDepth with
  | some d => get_at environment d lexeme line
  | none => some (get globalsEnv lexeme line)

/-- Arm `ExprKind::Assign` of `Interpreter::evaluate`
(`src/interpreter.rs` lines 258-273), with the right-hand value already
evaluated: a resolved depth writes through `assign_at` on the current
environment, an absent side-table entry writes through `globals.assign`.
Returns the updated (current, globals) pair of chains; the source shares
their tail through `Rc`, which the pair rendering leaves implicit. -/
def assign_variable (environment globalsEnv : Env) (resolvedDepth : Option Nat)
    (lexeme : String) (value : Value) (line : Nat) :
    Option (Except Error (Env × Env)) :=
  match resolvedDepth with
  | some d =>
    (assign_at environment d lexeme value line).map
      (Except.map (fun e2 => (e2, globalsEnv)))
  | none =>
    match assign globalsEnv lexeme value line with
    | .ok g2 => some (.ok (environment, g2))
    | .error e => some (.error e)

theorem enclosing_cons {f : Frame} {rest : Env} (h : rest ≠ []) :
    enclosing (f :: rest) = some rest := by
  cases rest with
  | nil => exact absurd rfl h
  | cons g t => rfl

theorem ancestorLoop_eq_drop :
    ∀ (n : Nat) (env : Env), n < env.length → ancestorLoop env n = some (env.drop n) := by
  intro n
  induction n with
  | zero => intro env _; rfl
  | succ n ih =>
    intro env hlen
    match env with
    | [] => simp at hlen
    | f :: rest =>
      have hrest : rest ≠ [] := by
        intro hre
        subst hre
        simp at hlen
      have hn : n < rest.length := by
        simpa using Nat.lt_of_succ_lt_succ hlen
      simp only [ancestorLoop, enclosing_cons hrest]
      rw [ih rest hn]
      rfl

theorem ancestor_eq_drop {env : Env} {d : Nat} (h1 : 1 ≤ d) (h2 : d < env.length) :
    ancestor env d = some (env.drop d) := by
  match env with
  | [] => simp at h2
  | f :: rest =>
    have hrest : rest ≠ [] := by
      intro hre
      subst hre
      simp at h2
      omega
    have hlt : d - 1 < rest.length := by
      simp at h2
      omega
    simp only [ancestor, enclosing_cons hrest, ancestorLoop_eq_drop (d - 1) rest hlt]
    congr 1
    have : d = (d - 1) + 1 := by omega
    rw [this]
    rfl

theorem get_head_hit {f : Frame} {rest : Env} {x : String} {v : Value} {line : Nat}
    (h : f.lookup x = some v) : get (f :: rest) x line = .ok v := by
  simp only [get, h]

theorem assign_head_hit {f : Frame} {rest : Env} {x : String} {v w : Value} {line : Nat}
    (h : f.lookup x = some v) :
    assign (f :: rest) x w line = .ok (((x, w) :: f) :: rest) := by
  simp only [assign, h, Option.isSome_some, if_pos]

theorem get_at_eq (env : Env) (d : Nat) (x : String) (line : Nat) (hd : d < env.length) :
    get_at env d x line = some (get (env.drop d) x line) := by
  rcases Nat.eq_zero_or_pos d with h0 | h1
  · subst h0
    simp [get_at]
  · have hne : ¬ d = 0 := by omega
    simp only [get_at, if_neg hne, ancestor_eq_drop h1 hd, Option.map_some']

theorem assign_at_eq (env : Env) (d : Nat) (x : String) (w : Value) (line : Nat)
    (hd : d < env.length) :
    assign_at env d x w line =
      some (match assign (env.drop d) x w line with
        | .ok a2 => .ok (env.take d ++ a2)
        | .error e => .error e) := by
  rcases Nat.eq_zero_or_pos d with h0 | h1
  · subst h0
    simp only [assign_at, if_pos rfl, List.drop_zero, List.take_zero]
    cases assign env x w line <;> simp
  · have hne : ¬ d = 0 := by omega
    simp only [assign_at, if_neg hne, ancestor_eq_drop h1 hd, Option.map_some']

/-- C1.  For a variable reference that the resolver mapped to depth `d`
(so the side-table entry is `some d`, and at run time the frame `d` hops
up the chain binds the name, which the resolver guarantees for accepted
programs), `lookup_variable` reads the value most recently bound to the
name in the `d`-th enclosing environment of the current chain, and the
`Assign` arm writes there, so that a subsequent resolved read sees the
written value.  A reference absent from the side-table (`none`) reads
and writes the `globals` environment instead. -/
theorem c1_resolved_reference_env_law
    (env globalsEnv : Env) (d : Nat) (x : String) (v w : Value) (line : Nat)
    (hd : d < env.length) (hv : (env.getD d []).lookup x = some v) :
    lookup_variable env globalsEnv (some d) x line = some (.ok v)
    ∧ (∃ env2,
        assign_variable env globalsEnv (some d) x w line = some (.ok (env2, globalsEnv))
        ∧ lookup_variable env2 globalsEnv (some d) x line = some (.ok w))
    ∧ lookup_variable env globalsEnv none x line = some (get globalsEnv x line)
    ∧ assign_variable env globalsEnv none x w line =
        some ((assign globalsEnv x w line).map (fun g2 => (env, g2))) := by
  have hv' : (env[d]).lookup x = some v := by
    rwa [List.getD_eq_getElem env [] hd] at hv
  have hdropc : env.drop d = env[d] :: env.drop (d + 1) := List.drop_eq_getElem_cons hd
  refine ⟨?_, ?_, rfl, ?_⟩
  · simp only [lookup_variable, get_at_eq env d x line hd, hdropc, get_head_hit hv']
  · refine ⟨env.take d ++ ((x, w) :: env[d]) :: env.drop (d + 1), ?_, ?_⟩
    · simp only [assign_variable, assign_at_eq env d x w line hd, hdropc,
        assign_head_hit hv', Option.map_some', Except.map]
    · have hlen2 : (env.take d ++ ((x, w) :: env[d]) :: env.drop (d + 1)).length
          = env.length := by
        simp only [List.length_append, List.length_take, List.length_cons,
          List.length_drop]
        omega
      have hd2 : d < (env.take d ++ ((x, w) :: env[d]) :: env.drop (d + 1)).length := by
        omega
      rw [lookup_variable, get_at_eq _ d x line hd2]
      have hdrop2 : (env.take d ++ ((x, w) :: env[d]) :: env.drop (d + 1)).drop d
          = ((x, w) :: env[d]) :: env.drop (d + 1) :=
        List.drop_left' (List.length_take_of_le (le_of_lt hd))
      rw [hdrop2, get_head_hit (by simp : ((x, w) :: env[d]).lookup x = some w)]
  · simp only [assign_variable]
    cases assign globalsEnv x w line <;> simp [Except.map]

/-- Witness for C1 at a concrete two-frame chain in which `x` lives one
hop up with value `1`. -/
theorem c1_resolved_reference_env_law_witness :
    lookup_variable [[("y", Value.nil)], [("x", Value.number 1)]] [[("g", Value.nil)]]
        (some 1) "x" 7 = some (.ok (Value.number 1))
    ∧ (∃ env2,
        assign_variable [[("y", Value.nil)], [("x", Value.number 1)]] [[("g", Value.nil)]]
            (some 1) "x" (Value.number 2) 7 = some (.ok (env2, [[("g", Value.nil)]]))
        ∧ lookup_variable env2 [[("g", Value.nil)]] (some 1) "x" 7
            = some (.ok (Value.number 2)))
    ∧ lookup_variable [[("y", Value.nil)], [("x", Value.number 1)]] [[("g", Value.nil)]]
        none "x" 7 = some (get [[("g", Value.nil)]] "x" 7)
    ∧ assign_variable [[("y", Value.nil)], [("x", Value.number 1)]] [[("g", Value.nil)]]
        none "x" (Value.number 2) 7 =
        some ((assign [[("g", Value.nil)]] "x" (Value.number 2) 7).map
          (fun g2 => ([[("y", Value.nil)], [("x", Value.number 1)]], g2))) :=
  c1_resolved_reference_env_law [[("y", Value.nil)], [("x", Value.number 1)]]
    [[("g", Value.nil)]] 1 "x" (Value.number 1) (Value.number 2) 7
    (by decide) (by decide)

/-- Structure `LoxFunction` from `src/function.rs`: the parameter tokens
are reduced to their names and the statement body is not carried; the
outcome of executing the body is instead a parameter of `call` below,
since running statements needs the whole interpreter. -/
structure LoxFunction where
  name : String
  params : List String
  closure : Env
  is_initializer : Bool
deriving DecidableEq

/-- Method `LoxFunction::bind` (`src/function.rs` lines 41-54): wrap the
closure in a fresh environment that defines `this` as the receiver
instance, keeping name, params, body and the initializer flag. -/
def LoxFunction.bind (f : LoxFunction) (instId : Nat) (instClass : String) :
    LoxFunction :=
  { f with closure := define (wrap f.closure) "this" (.inst instId instClass) }

/-- Method `LoxFunction::call` (`src/function.rs` lines 70-99).  The
source builds a call environment over the closure, binds the parameters
and executes the body through the interpreter; `bodyOutcome` stands for
that `execute_block` result (`Except.ok ()` is fall-through,
`Except.error (.ret v)` the non-local return carrier).  On fall-through
a non-initializer returns `Nil`, an initializer reads `this` out of its
closure; on a `Return` carrier an initializer again reads `this`, a
non-initializer returns the carried value (the source probes `this`
with a token whose line is the literal 42); any other error
propagates. -/
def LoxFunction.call (f : LoxFunction) (bodyOutcome : Except Error Unit) :
    Except Error Value :=
  match bodyOutcome with
  | .ok () =>
    if !f.is_initializer then .ok .nil
    else get f.closure "this" 42
  | .error (.ret value) =>
    if f.is_initializer then get f.closure "this" 42
    else .ok value
  | .error e => .error e

/-- Method `LoxClass::find_method` (`src/class.rs` lines 28-31): look
the name up in the method map. -/
def find_method (methods : List (String × LoxFunction)) (name : String) :
    Option LoxFunction :=
  methods.lookup name

/-- Method `LoxClass::call` (`src/class.rs` lines 48-57): create a fresh
instance; when the method table has an `init`, bind it to the instance
and call it, propagating only its error through `?` and discarding its
value; finally return the freshly created instance.  `freshId` models
the identity of the new `Rc<RefCell<LoxInstance>>`; `initBodyOutcome`
is the outcome of executing the bound initializer's body, as in
`LoxFunction.call`. -/
def LoxClass.call (className : String) (methods : List (String × LoxFunction))
    (freshId : Nat) (initBodyOutcome : Except Error Unit) : Except Error Value :=
  match find_method methods "init" with
  | some initializer =>
    match (initializer.bind freshId className).call initBodyOutcome with
    | .ok _ => .ok (.inst freshId className)
    | .error e => .error e
  | none => .ok (.inst freshId className)

/-- C2.  When the method table contains `init` and the initializer call
completes, calling the class returns the freshly created instance
(whatever value the initializer call produced); and a function whose
`is_initializer` flag is set returns the `this` binding of its closure
both on fall-through of its body and on a bare `return;` (which the
interpreter turns into a `Return` carrier holding `Nil`). -/
theorem c2_class_call_returns_fresh_instance_and_initializer_returns_this
    (className : String) (methods : List (String × LoxFunction)) (freshId : Nat)
    (initializer f : LoxFunction) (body : Except Error Unit) (v w : Value)
    (hfind : find_method methods "init" = some initializer)
    (hinit : (initializer.bind freshId className).call body = .ok v)
    (hf : f.is_initializer = true)
    (hthis : get f.closure "this" 42 = .ok w) :
    LoxClass.call className methods freshId body = .ok (.inst freshId className)
    ∧ f.call (.ok ()) = .ok w
    ∧ f.call (.error (.ret .nil)) = .ok w := by
  refine ⟨?_, ?_, ?_⟩
  · simp only [LoxClass.call, hfind, hinit]
  · simp only [LoxFunction.call, hf, Bool.not_true, Bool.false_eq_true, if_false, hthis]
  · simp only [LoxFunction.call, hf, if_true, hthis]

/-- Witness for C2: a one-method class whose `init` closes over a
binding of `this` to instance 5 of class `C`. -/
theorem c2_class_call_returns_fresh_instance_and_initializer_returns_this_witness :
    LoxClass.call "C"
        [("init", { name := "init", params := [], closure := [[]],
                    is_initializer := true })] 5 (.ok ())
      = .ok (.inst 5 "C")
    ∧ LoxFunction.call
        { name := "init", params := [], closure := [[("this", Value.inst 5 "C")]],
          is_initializer := true } (.ok ())
      = .ok (Value.inst 5 "C")
    ∧ LoxFunction.call
        { name := "init", params := [], closure := [[("this", Value.inst 5 "C")]],
          is_initializer := true } (.error (.ret .nil))
      = .ok (Value.inst 5 "C") :=
  c2_class_call_returns_fresh_instance_and_initializer_returns_this "C"
    [("init", { name := "init", params := [], closure := [[]],
                is_initializer := true })] 5
    { name := "init", params := [], closure := [[]], is_initializer := true }
    { name := "init", params := [], closure := [[("this", Value.inst 5 "C")]],
      is_initializer := true }
    (.ok ()) (.inst 5 "C") (.inst 5 "C")
    (by decide) (by rfl) (by decide) (by rfl)

/-- PartialEq for `Value` (`src/value.rs` lines 25-35): structural for
booleans, numbers and strings, `Nil == Nil`, and every other pairing --
including any two callables or any two instances -- falls to the
catch-all arm and is `false`. -/
def value_eq : Value → Value → Bool
  | .boolean s, .boolean o => s == o
  | .nil, .nil => true
  | .number s, .number o => s == o
  | .string s, .string o => s == o
  | _, _ => false

/-- PartialEq for `Box<dyn Callable>` (`src/callable.rs` lines 21-25):
both operands are ignored and the result is `false` unconditionally. -/
def callable_eq (_u _v : CallableRef) : Bool := false

/-- C9.  Equality on callable values is never reflexive: a `Value`
wrapping any callable compares unequal to itself, and the boxed-callable
comparison returns `false` for every pair of operands. -/
theorem c9_callable_equality_never_reflexive :
    ∀ (c c1 c2 : CallableRef),
      value_eq (.callable c) (.callable c) = false ∧ callable_eq c1 c2 = false := by
  intro c c1 c2
  exact ⟨rfl, rfl⟩

/-- Unary operator token types reaching the `ExprKind::Unary` arm. -/
inductive UnaryOp where
  | minus
  | bang
deriving DecidableEq

/-- Binary operator token types reaching the `ExprKind::Binary` arm. -/
inductive BinaryOp where
  | greater
  | greaterEqual
  | less
  | lessEqual
  | equalEqual
  | bangEqual
  | minus
  | plus
  | slash
  | star
deriving DecidableEq

/-- Logical operator token: `TokenType::Or`, or anything else (`And`) in
the `matches!` test of the `Logical` arm. -/
inductive LogicalOp where
  | or
  | and
deriving DecidableEq

/-- Side-effect-free fragment of `ExprKind` (`src/ast.rs`): literal,
grouping, unary, binary and logical nodes.  Variable, assignment, call,
property and `this` forms need interpreter state and are outside the
fragment; claim C3 concerns the `Logical` arm's control flow, which is
fully represented.  Operator tokens are reduced to kind plus line. -/
inductive PureExpr where
  | literal (v : Value)
  | grouping (e : PureExpr)
  | unary (op : UnaryOp) (line : Nat) (e : PureExpr)
  | binary (left : PureExpr) (op : BinaryOp) (line : Nat) (right : PureExpr)
  | logical (left : PureExpr) (op : LogicalOp) (right : PureExpr)
deriving DecidableEq

/-- Function `check_number_operand` (`src/interpreter.rs` lines
115-124). -/
def check_number_operand (line : Nat) (operand : Value) : Except Error Int :=
  match operand with
  | .number n => .ok n
  | _ => .error (.runtime "Operand must be a number." line)

/-- Function `check_number_operands` (`src/interpreter.rs` lines
126-135); the message keeps the source's wording. -/
def check_number_operands (line : Nat) (left right : Value) :
    Except Error (Int × Int) :=
  match left, right with
  | .number l, .number r => .ok (l, r)
  | _, _ => .error (.runtime "Operands must be a numbers." line)

/-- Method `Interpreter::evaluate` (`src/interpreter.rs` lines 177-290)
restricted to the pure fragment; every arm mirrors the source arm of the
same name, in particular `Logical` (lines 274-290): evaluate the left
operand, return it when it decides the result (`or` with a truthy left,
`and` with a falsey left), otherwise evaluate and return the right
operand. -/
def evaluate : PureExpr → Except Error Value
  | .literal v => .ok v
  | .grouping g => evaluate g
  | .unary op line e =>
    match evaluate e with
    | .error er => .error er
    | .ok value =>
      match op with
      | .minus =>
        match check_number_operand line value with
        | .ok n => .ok (.number (-n))
        | .error er => .error er
      | .bang => .ok (.boolean (!is_truthy value))
  | .binary l op line r =>
    match evaluate l with
    | .error er => .error er
    | .ok left =>
      match evaluate r with
      | .error er => .error er
      | .ok right =>
        match op with
        | .greater =>
          match check_number_operands line left right with
          | .ok (a, b) => .ok (.boolean (decide (a > b)))
          | .error er => .error er
        | .greaterEqual =>
          match check_number_operands line left right with
          | .ok (a, b) => .ok (.boolean (decide (a ≥ b)))
          | .error er => .error er
        | .less =>
          match check_number_operands line left right with
          | .ok (a, b) => .ok (.boolean (decide (a < b)))
          | .error er => .error er
        | .lessEqual =>
          match check_number_operands line left right with
          | .ok (a, b) => .ok (.boolean (decide (a ≤ b)))
          | .error er => .error er
        | .equalEqual => .ok (.boolean (value_eq left right))
        | .bangEqual => .ok (.boolean (!value_eq left right))
        | .minus =>
          match check_number_operands line left right with
          | .ok (a, b) => .ok (.number (a - b))
          | .error er => .error er
        | .plus =>
          match left, right with
          | .number a, .number b => .ok (.number (a + b))
          | .string a, .string b => .ok (.string (a ++ b))
          | _, _ =>
            .error (.runtime "Operands must be two numbers or two strings." line)
        | .slash =>
          match check_number_operands line left right with
          | .ok (a, b) => .ok (.number (a / b))
          | .error er => .error er
        | .star =>
          match check_number_operands line left right with
          | .ok (a, b) => .ok (.number (a * b))
          | .error er => .error er
  | .logical l op r =>
    match evaluate l with
    | .error er => .error er
    | .ok left =>
      match op with
      | .or => if is_truthy left then .ok left else evaluate r
      | .and => if !is_truthy left then .ok left else evaluate r

/-- C3.  Short-circuit law of the `Logical` arm: `a or b` evaluates `b`
exactly when `a` is falsey and `a and b` evaluates `b` exactly when `a`
is truthy; the result is always one of the operand values themselves
(the left value when it decides, otherwise exactly the evaluation of
the right operand), never a coerced Boolean.  Non-evaluation of `b` is
rendered as invariance of the result under replacing `b`. -/
theorem c3_logical_short_circuit
    (a b c : PureExpr) (la : Value) (ha : evaluate a = .ok la) :
    (is_truthy la = true →
      evaluate (.logical a .or b) = .ok la
      ∧ evaluate (.logical a .or b) = evaluate (.logical a .or c)
      ∧ evaluate (.logical a .and b) = evaluate b)
    ∧ (is_truthy la = false →
      evaluate (.logical a .or b) = evaluate b
      ∧ evaluate (.logical a .and b) = .ok la
      ∧ evaluate (.logical a .and b) = evaluate (.logical a .and c)) := by
  constructor <;> intro ht <;> refine ⟨?_, ?_, ?_⟩ <;> simp [evaluate, ha, ht]

/-- Witness for C3 with a truthy and a falsey left operand. -/
theorem c3_logical_short_circuit_witness :
    ((is_truthy (Value.boolean true) = true →
      evaluate (.logical (.literal (.boolean true)) .or (.literal .nil))
        = .ok (Value.boolean true)
      ∧ evaluate (.logical (.literal (.boolean true)) .or (.literal .nil))
        = evaluate (.logical (.literal (.boolean true)) .or (.literal (.number 1)))
      ∧ evaluate (.logical (.literal (.boolean true)) .and (.literal .nil))
        = evaluate (.literal .nil))
    ∧ (is_truthy (Value.boolean true) = false →
      evaluate (.logical (.literal (.boolean true)) .or (.literal .nil))
        = evaluate (.literal .nil)
      ∧ evaluate (.logical (.literal (.boolean true)) .and (.literal .nil))
        = .ok (Value.boolean true)
      ∧ evaluate (.logical (.literal (.boolean true)) .and (.literal .nil))
        = evaluate (.logical (.literal (.boolean true)) .and (.literal (.number 1)))))
    ∧ ((is_truthy Value.nil = true →
      evaluate (.logical (.literal .nil) .or (.literal (.string "s")))
        = .ok Value.nil
      ∧ evaluate (.logical (.literal .nil) .or (.literal (.string "s")))
        = evaluate (.logical (.literal .nil) .or (.literal (.number 1)))
      ∧ evaluate (.logical (.literal .nil) .and (.literal (.string "s")))
        = evaluate (.literal (.string "s")))
    ∧ (is_truthy Value.nil = false →
      evaluate (.logical (.literal .nil) .or (.literal (.string "s")))
        = evaluate (.literal (.string "s"))
      ∧ evaluate (.logical (.literal .nil) .and (.literal (.string "s")))
        = .ok Value.nil
      ∧ evaluate (.logical (.literal .nil) .and (.literal (.string "s")))
        = evaluate (.logical (.literal .nil) .and (.literal (.number 1))))) :=
  ⟨c3_logical_short_circuit (.literal (.boolean true)) (.literal .nil)
      (.literal (.number 1)) (.boolean true) (by rfl),
    c3_logical_short_circuit (.literal .nil) (.literal (.string "s"))
      (.literal (.number 1)) .nil (by rfl)⟩

/-- Display for `LoxFunction` (`src/function.rs` lines 57-63): the
format string is `"<fn {name}>"`. -/
def display_function (name : String) : String := "<fn " ++ name ++ ">"

/-- Display for `Clock` (`src/clock.rs`): always `<native fn>`. -/
def display_native : String := "<native fn>"

/-- Display for `LoxClass` (`src/class.rs` lines 33-37): the format
string is `"<class {}>"` applied to the class name. -/
def LoxClass.display (name : String) : String := "<class " ++ name ++ ">"

/-- Display for `LoxInstance` (`src/class.rs` lines 102-106): the
format string is `"<inst {}>"` applied to the instance's class name. -/
def LoxInstance.display (className : String) : String := "<inst " ++ className ++ ">"

/-- Display for `Value` (`src/value.rs` lines 13-23), which is what a
`print` statement emits (`Stmt::Print` runs `println!("{value}")`):
callables and instances delegate to their own Display impls.  Number
formatting is inherited from the `Int` stand-in and not at stake in any
claim. -/
def display_value : Value → String
  | .boolean b => toString b
  | .callable (.function name) => display_function name
  | .callable (.classObj name) => LoxClass.display name
  | .callable .native => display_native
  | .inst _ className => LoxInstance.display className
  | .nil => "nil"
  | .number n => toString n
  | .string s => s

/-- C5 counterexample: printing the class `Bagel` emits `<class Bagel>`
and not the bare class name, and printing one of its instances emits
`<inst Bagel>` and not `Bagel instance`, contradicting the claimed
display forms. -/
theorem c5_display_counterexample :
    display_value (.callable (.classObj "Bagel")) = "<class Bagel>"
    ∧ display_value (.callable (.classObj "Bagel")) ≠ "Bagel"
    ∧ display_value (.inst 0 "Bagel") = "<inst Bagel>"
    ∧ display_value (.inst 0 "Bagel") ≠ "Bagel instance" := by
  refine ⟨rfl, by decide, rfl, by decide⟩

/-- C5 amended: the display form of a class value is `<class NAME>` and
the display form of an instance value is `<inst NAME>`, where `NAME` is
the class name. -/
theorem c5_display_amended (name : String) (id : Nat) :
    display_value (.callable (.classObj name)) = "<class " ++ name ++ ">"
    ∧ display_value (.inst id name) = "<inst " ++ name ++ ">" :=
  ⟨rfl, rfl⟩

/-- Expression nodes from `src/ast.rs` (`ExprKind`).  Name and operator
tokens are reduced to lexeme strings; the `Uuid` node identity used as
the resolver's side-table key is not carried (no claim below keys on
it). -/
inductive Expr where
  | assign (name : String) (value : Expr)
  | binary (left : Expr) (operator : String) (right : Expr)
  | call (callee : Expr) (arguments : List Expr)
  | get (object : Expr) (name : String)
  | grouping (e : Expr)
  | literal (v : Value)
  | logical (left : Expr) (operator : String) (right : Expr)
  | set (object : Expr) (name : String) (value : Expr)
  | this
  | unary (operator : String) (right : Expr)
  | variable (name : String)

/-- Tail of `Parser::assignment` (`src/parser.rs` lines 320-340) after
the left-hand side `expr` has been produced by `or()`: when the next
token is `=` (`equalsFollows`), the right-hand side is parsed first
(`valueResult`, the recursive `assignment()` call, whose error
propagates); then a `Variable` left-hand side becomes `Assign`, and
every other shape reports `Invalid assignment target.` and returns
`Err(Error::ParseError)`.  This parser has no arm converting `Get` into
`Set`.  The second component is the diagnostics the call printed. -/
def assignment_finish (expr : Expr) (equalsFollows : Bool)
    (valueResult : Except Unit Expr) : Except Unit Expr × List String :=
  if equalsFollows then
    match valueResult with
    | .error e => (.error e, [])
    | .ok value =>
      match expr with
      | .variable name => (.ok (.assign name value), [])
      | _ => (.error (), ["Invalid assignment target."])
  else (.ok expr, [])

/-- C4 counterexample: with left-hand side `a.b` (a `Get` node) and `=`
followed by a parsed value, the parser reports `Invalid assignment
target.` and fails; it does not build `Set(object, name)`. -/
theorem c4_get_lhs_counterexample :
    assignment_finish (.get (.variable "a") "b") true (.ok (.literal .nil))
      = (.error (), ["Invalid assignment target."])
    ∧ assignment_finish (.get (.variable "a") "b") true (.ok (.literal .nil))
      ≠ (.ok (.set (.variable "a") "b" (.literal .nil)), []) := by
  refine ⟨rfl, ?_⟩
  intro h
  simpa [assignment_finish] using congrArg Prod.fst h

/-- C4 amended: after an accepted expression followed by `=`, a
`Variable` left-hand side is converted into `Assign(name)`; every other
left-hand shape -- including `Get` -- reports `Invalid assignment
target.` and the parse fails; no `Set` node is ever produced.  Without
a following `=` the expression passes through, and an error in the
right-hand side propagates. -/
theorem c4_assignment_conversion_amended
    (name : String) (expr value : Expr) (vr : Except Unit Expr) (e : Unit)
    (hnv : ∀ n, expr ≠ .variable n) :
    assignment_finish (.variable name) true (.ok value)
      = (.ok (.assign name value), [])
    ∧ assignment_finish expr true (.ok value)
      = (.error (), ["Invalid assignment target."])
    ∧ assignment_finish expr false vr = (.ok expr, [])
    ∧ assignment_finish (.variable name) true (.error e) = (.error e, []) := by
  refine ⟨rfl, ?_, rfl, rfl⟩
  cases expr <;> first | rfl | exact absurd rfl (hnv _)

/-- Witness for C4 amended at the `Get` left-hand side `a.b`. -/
theorem c4_assignment_conversion_amended_witness :
    assignment_finish (.variable "x") true (.ok (.literal .nil))
      = (.ok (.assign "x" (.literal .nil)), [])
    ∧ assignment_finish (.get (.variable "a") "b") true (.ok (.literal .nil))
      = (.error (), ["Invalid assignment target."])
    ∧ assignment_finish (.get (.variable "a") "b") false (.ok (.literal .nil))
      = (.ok (.get (.variable "a") "b"), [])
    ∧ assignment_finish (.variable "x") true (.error ()) = (.error (), []) :=
  c4_assignment_conversion_amended "x" (.get (.variable "a") "b") (.literal .nil)
    (.ok (.literal .nil)) () (fun _ h => Expr.noConfusion h)

end TW

namespace BC

/-- Value from `bytecode/src/value.rs`: booleans, numbers, nil.  The
`f64` payload is modelled with `Int`; no claim below depends on
IEEE-754 arithmetic. -/
inductive Value where
  | boolean (b : Bool)
  | number (n : Int)
  | nil
deriving DecidableEq

/-- Modelled from the spec: `Value::is_falsey`, used by the VM's `Not`
arm (`bytecode/src/vm.rs` line 144), is not part of the included
`bytecode/src/value.rs` revision.  Spec truthiness: `Nil` and `false`
are falsey, everything else truthy. -/
def Value.is_falsey : Value → Bool
  | .nil => true
  | .boolean b => !b
  | _ => false

/-- Modelled from the spec: the structural equality behind `a == b` in
the VM's `Equal` arm (`bytecode/src/vm.rs` line 122); the `PartialEq`
impl is not part of the included `bytecode/src/value.rs` revision.
Spec: "Equal operates on any pair using structural equality", mixed
kinds compare unequal. -/
def Value.structural_eq : Value → Value → Bool
  | .boolean s, .boolean o => s == o
  | .number s, .number o => s == o
  | .nil, .nil => true
  | _, _ => false

/-- Enum `OpCode` from `bytecode/src/chunk.rs` lines 13-30, with the
`repr(u8)` discriminants `Constant = 0` through `Return = 13`. -/
inductive OpCode where
  | Constant
  | Nil
  | True
  | False
  | Equal
  | Greater
  | Less
  | Add
  | Subtract
  | Multiply
  | Divide
  | Not
  | Negate
  | Return
deriving DecidableEq

/-- Conversion `Into<u8>` for `OpCode` (`num_enum::IntoPrimitive` on the
`repr(u8)` enum). -/
def OpCode.toByte : OpCode → Nat
  | .Constant => 0
  | .Nil => 1
  | .True => 2
  | .False => 3
  | .Equal => 4
  | .Greater => 5
  | .Less => 6
  | .Add => 7
  | .Subtract => 8
  | .Multiply => 9
  | .Divide => 10
  | .Not => 11
  | .Negate => 12
  | .Return => 13

/-- Conversion `TryFrom<u8>` for `OpCode` (`num_enum::TryFromPrimitive`):
`none` on a byte that is no discriminant. -/
def OpCode.fromByte : Nat → Option OpCode
  | 0 => some .Constant
  | 1 => some .Nil
  | 2 => some .True
  | 3 => some .False
  | 4 => some .Equal
  | 5 => some .Greater
  | 6 => some .Less
  | 7 => some .Add
  | 8 => some .Subtract
  | 9 => some .Multiply
  | 10 => some .Divide
  | 11 => some .Not
  | 12 => some .Negate
  | 13 => some .Return
  | _ => none

/-- Struct `Chunk` (`bytecode/src/chunk.rs` lines 96-101): code bytes
(`u8` modelled as `Nat`), constant pool, and the parallel per-byte line
table. -/
structure Chunk where
  code : List Nat
  constants : List Value
  lines : List Nat
deriving DecidableEq

/-- Constructor `Chunk::new` / `Default`: all three arrays empty. -/
def Chunk.new : Chunk := { code := [], constants := [], lines := [] }

/-- Method `Chunk::write` (`bytecode/src/chunk.rs` lines 120-123): push
the byte onto `code` and the line onto `lines`. -/
def Chunk.write (c : Chunk) (byte : Nat) (line : Nat) : Chunk :=
  { c with code := c.code ++ [byte], lines := c.lines ++ [line] }

/-- Method `Chunk::add_constant` (`bytecode/src/chunk.rs` lines
125-129): push the value and return `(self.constants.len() - 1) as u8`,
that is, the new length minus one reduced modulo 256. -/
def Chunk.add_constant (c : Chunk) (constant : Value) : Chunk × Nat :=
  let c2 : Chunk := { c with constants := c.constants ++ [constant] }
  (c2, (c2.constants.length - 1) % 256)

/-- Repeated `add_constant` of `Nil`, for the C7 counterexample. -/
def addNilConstants : Nat → Chunk → Chunk
  | 0, c => c
  | n + 1, c => addNilConstants n (c.add_constant .nil).1

set_option maxRecDepth 8192 in
/-- C7 counterexample: after 256 constants have been added, adding one
more stores it at position 256 -- the pool then holds 257 > 256 values
-- while `add_constant` returns index 0; the returned byte no longer
equals the appended constant's position and nothing caps the pool at
256 constants. -/
theorem c7_add_constant_counterexample :
    ((addNilConstants 256 Chunk.new).add_constant .nil).2 = 0
    ∧ ((addNilConstants 256 Chunk.new).add_constant .nil).1.constants.length = 257
    ∧ (addNilConstants 256 Chunk.new).constants.length = 256 := by
  refine ⟨?_, ?_, ?_⟩ <;> rfl

/-- C7 amended: `add_constant` appends the value to the pool and
returns `(len - 1) % 256` as its 8-bit index; whenever the pool held
fewer than 256 constants before the call, that index equals the
position of the appended constant and indexes back to it.  The chunk
itself never enforces the 256-constant bound. -/
theorem c7_add_constant_amended (c : Chunk) (v : Value)
    (h : c.constants.length < 256) :
    (c.add_constant v).1.constants = c.constants ++ [v]
    ∧ (c.add_constant v).2 = c.constants.length
    ∧ (c.add_constant v).1.constants.getD (c.add_constant v).2 .nil = v := by
  have hidx : (c.add_constant v).2 = c.constants.length := by
    simp only [Chunk.add_constant, List.length_append, List.length_cons,
      List.length_nil]
    omega
  refine ⟨rfl, hidx, ?_⟩
  rw [hidx]
  have hlt : c.constants.length < (c.constants ++ [v]).length := by simp
  show (c.constants ++ [v]).getD c.constants.length .nil = v
  rw [List.getD_eq_getElem _ _ hlt, List.getElem_append_right (Nat.le_refl _)]
  simp

/-- Witness for C7 amended at the empty chunk. -/
theorem c7_add_constant_amended_witness :
    (Chunk.new.add_constant .nil).1.constants = Chunk.new.constants ++ [.nil]
    ∧ (Chunk.new.add_constant .nil).2 = Chunk.new.constants.length
    ∧ (Chunk.new.add_constant .nil).1.constants.getD
        (Chunk.new.add_constant .nil).2 .nil = Value.nil :=
  c7_add_constant_amended Chunk.new .nil (by decide)

/-- Mutating operations of the chunk-building API: `write` and
`add_constant` are the only ways the compiler grows a chunk. -/
inductive ChunkOp where
  | write (byte : Nat) (line : Nat)
  | addConstant (v : Value)
deriving DecidableEq

/-- Application of one chunk operation. -/
def applyChunkOp (c : Chunk) : ChunkOp → Chunk
  | .write b l => c.write b l
  | .addConstant v => (c.add_constant v).1

/-- Application of a sequence of chunk operations, oldest first. -/
def applyChunkOps (c : Chunk) (ops : List ChunkOp) : Chunk :=
  ops.foldl applyChunkOp c

theorem chunk_ops_preserve_parallel (ops : List ChunkOp) :
    ∀ c : Chunk, c.code.length = c.lines.length →
      (applyChunkOps c ops).code.length = (applyChunkOps c ops).lines.length := by
  induction ops with
  | nil => intro c h; simpa [applyChunkOps] using h
  | cons op rest ih =>
    intro c h
    have h2 : (applyChunkOp c op).code.length = (applyChunkOp c op).lines.length := by
      cases op <;> simp [applyChunkOp, Chunk.write, Chunk.add_constant, h]
    simpa [applyChunkOps] using ih (applyChunkOp c op) h2

/-- C8.  Writing one byte appends exactly one code byte together with
one aligned line entry, and any sequence of chunk operations preserves
the equal-length invariant of the parallel `code` and `lines` arrays,
so every emitted byte has a matching line entry. -/
theorem c8_code_lines_parallel (c : Chunk) (b l : Nat) (ops : List ChunkOp)
    (h : c.code.length = c.lines.length) :
    (c.write b l).code.length = c.code.length + 1
    ∧ (c.write b l).lines.length = c.lines.length + 1
    ∧ (applyChunkOps c ops).code.length = (applyChunkOps c ops).lines.length :=
  ⟨by simp [Chunk.write], by simp [Chunk.write],
    chunk_ops_preserve_parallel ops c h⟩

/-- Witness for C8 on a three-operation history over the fresh chunk. -/
theorem c8_code_lines_parallel_witness :
    (Chunk.new.write 0 1).code.length = Chunk.new.code.length + 1
    ∧ (Chunk.new.write 0 1).lines.length = Chunk.new.lines.length + 1
    ∧ (applyChunkOps Chunk.new
        [.write 0 1, .addConstant .nil, .write 13 2]).code.length
      = (applyChunkOps Chunk.new
        [.write 0 1, .addConstant .nil, .write 13 2]).lines.length :=
  c8_code_lines_parallel Chunk.new 0 1 [.write 0 1, .addConstant .nil, .write 13 2]
    (by rfl)

/-- Struct `Vm` (`bytecode/src/vm.rs` lines 17-21): instruction pointer
plus value stack.  The stack is rendered head-first: the list head is
the top of the Rust `Vec` (its last element), so `peek(d)` is element
`d` of the list and `pop` takes the head. -/
structure Vm where
  ip : Nat
  stack : List Value
deriving DecidableEq

/-- Method `Vm::runtime_error` (`bytecode/src/vm.rs` lines 55-59): read
the line recorded for the instruction at `ip - 1`, print
`MESSAGE\n[line L] in script` to stderr, reset the stack to empty.  The
pair is (machine after the reset, emitted report); an out-of-bounds
`lines` index, which would panic in the source, is rendered through
`getD`. -/
def runtime_error (vm : Vm) (message : String) (chunk : Chunk) : Vm × String :=
  let line := chunk.lines.getD (vm.ip - 1) 0
  ({ vm with stack := [] },
    message ++ "\n[line " ++ toString line ++ "] in script")

/-- Result of `Vm::run`: `ok` for the `Ok(())` of the `Return` opcode,
`runtimeErr` for `Err(Error::Runtime)`, and `stuck` for the model
artifacts -- fuel exhaustion or a point where the source would panic
(out-of-bounds code or constant index, underflowing stack access). -/
inductive Outcome where
  | ok
  | runtimeErr
  | stuck
deriving DecidableEq

/-- Outcome of one iteration of the `Vm::run` loop body: continue with
a new machine state, or leave the loop with an outcome and possibly one
line printed to stderr by `runtime_error`. -/
inductive StepOut where
  | again (vm : Vm)
  | halt (outcome : Outcome) (vm : Vm) (emitted : Option String)
deriving DecidableEq

/-- Error exit shared by the arithmetic, comparison and negate arms:
call `runtime_error`, then `return Err(Error::Runtime)`. -/
def reportHalt (chunk : Chunk) (vm : Vm) (message : String) : StepOut :=
  let r := runtime_error vm message chunk
  .halt .runtimeErr r.1 (some r.2)

/-- Macro `cmp_op!` (`bytecode/src/vm.rs` lines 92-103): when the two
topmost values are numbers, pop both and push the Boolean comparison
`a op b`; with two stacked values of other kinds report
`Operands must be numbers.`; with fewer than two values `peek`
underflows (a panic in the source). -/
def cmpStep (chunk : Chunk) (vm : Vm) (cmp : Int → Int → Bool) : StepOut :=
  match vm.stack with
  | .number b :: .number a :: rest =>
    .again { vm with stack := .boolean (cmp a b) :: rest }
  | _ :: _ :: _ => reportHalt chunk vm "Operands must be numbers."
  | _ => .halt .stuck vm none

/-- Macro `binary_op!` (`bytecode/src/vm.rs` lines 79-90): same shape
as `cmp_op!` but pushing the numeric combination `a op b`. -/
def binStep (chunk : Chunk) (vm : Vm) (combine : Int → Int → Int) : StepOut :=
  match vm.stack with
  | .number b :: .number a :: rest =>
    .again { vm with stack := .number (combine a b) :: rest }
  | _ :: _ :: _ => reportHalt chunk vm "Operands must be numbers."
  | _ => .halt .stuck vm none

/-- Loop body of `Vm::run` (`bytecode/src/vm.rs` lines 61-164): fetch
the byte at `ip` and advance; decode it (an invalid opcode is mapped to
a bare `Err(Error::Runtime)` with no report and no stack reset);
dispatch.  `Constant` reads its operand byte and pushes the pool entry;
literals push; `Equal` pops two values and pushes their structural
equality; comparisons and arithmetic go through the two macros; `Not`
pops and pushes falsiness; `Negate` requires a number on top else
reports `Operand must be a number.`; `Return` pops the top value if any
(printing it to stdout, which is not modelled) and halts with
success. -/
def step (chunk : Chunk) (vm : Vm) : StepOut :=
  match chunk.code.get? vm.ip with
  | none => .halt .stuck vm none
  | some instruction =>
    match OpCode.fromByte instruction with
    | none => .halt .runtimeErr { vm with ip := vm.ip + 1 } none
    | some .Constant =>
      match chunk.code.get? (vm.ip + 1) with
      | none => .halt .stuck { vm with ip := vm.ip + 1 } none
      | some idx =>
        match chunk.constants.get? idx with
        | none => .halt .stuck { vm with ip := vm.ip + 2 } none
        | some v => .again { ip := vm.ip + 2, stack := v :: vm.stack }
    | some .Nil => .again { ip := vm.ip + 1, stack := .nil :: vm.stack }
    | some .True => .again { ip := vm.ip + 1, stack := .boolean true :: vm.stack }
    | some .False => .again { ip := vm.ip + 1, stack := .boolean false :: vm.stack }
    | some .Equal =>
      match vm.stack with
      | b :: a :: rest =>
        .again { ip := vm.ip + 1, stack := .boolean (a.structural_eq b) :: rest }
      | _ => .halt .stuck { vm with ip := vm.ip + 1 } none
    | some .Greater =>
      cmpStep chunk { vm with ip := vm.ip + 1 } (fun a b => decide (a > b))
    | some .Less =>
      cmpStep chunk { vm with ip := vm.ip + 1 } (fun a b => decide (a < b))
    | some .Add => binStep chunk { vm with ip := vm.ip + 1 } (fun a b => a + b)
    | some .Subtract => binStep chunk { vm with ip := vm.ip + 1 } (fun a b => a - b)
    | some .Multiply => binStep chunk { vm with ip := vm.ip + 1 } (fun a b => a * b)
    | some .Divide => binStep chunk { vm with ip := vm.ip + 1 } (fun a b => a / b)
    | some .Not =>
      match vm.stack with
      | v :: rest => .again { ip := vm.ip + 1, stack := .boolean v.is_falsey :: rest }
      | [] => .halt .stuck { vm with ip := vm.ip + 1 } none
    | some .Negate =>
      match vm.stack with
      | .number n :: rest => .again { ip := vm.ip + 1, stack := .number (-n) :: rest }
      | _ :: _ => reportHalt chunk { vm with ip := vm.ip + 1 } "Operand must be a number."
      | [] => .halt .stuck { vm with ip := vm.ip + 1 } none
    | some .Return =>
      match vm.stack with
      | _ :: rest => .halt .ok { ip := vm.ip + 1, stack := rest } none
      | [] => .halt .ok { vm with ip := vm.ip + 1 } none

/-- Method `Vm::run` as the fuelled iteration of `step`, threading the
list of stderr lines the machine emits. -/
def run : Nat → Chunk → Vm → List String → Outcome × Vm × List String
  | 0, _, vm, log => (.stuck, vm, log)
  | fuel + 1, chunk, vm, log =>
    match step chunk vm with
    | .again vm1 => run fuel chunk vm1 log
    | .halt outcome vm1 none => (outcome, vm1, log)
    | .halt outcome vm1 (some line) => (outcome, vm1, log ++ [line])

theorem reportHalt_spec (chunk : Chunk) (vm : Vm) (message : String) :
    reportHalt chunk vm message = .halt .runtimeErr { vm with stack := [] }
      (some (message ++ "\n[line " ++ toString (chunk.lines.getD (vm.ip - 1) 0)
        ++ "] in script")) := rfl

theorem cmpStep_report {chunk : Chunk} {vm : Vm} {cmp : Int → Int → Bool}
    {vmo : Vm} {line : String}
    (h : cmpStep chunk vm cmp = .halt .runtimeErr vmo (some line)) :
    vmo = { vm with stack := [] }
    ∧ line = "Operands must be numbers." ++ "\n[line "
        ++ toString (chunk.lines.getD (vm.ip - 1) 0) ++ "] in script" := by
  unfold cmpStep at h
  split at h
  · exact absurd h (by simp)
  · rw [reportHalt_spec] at h
    obtain ⟨-, h2, h3⟩ := StepOut.halt.inj h
    exact ⟨h2.symm, (Option.some.inj h3).symm⟩
  · exact absurd h (by simp)

theorem binStep_report {chunk : Chunk} {vm : Vm} {combine : Int → Int → Int}
    {vmo : Vm} {line : String}
    (h : binStep chunk vm combine = .halt .runtimeErr vmo (some line)) :
    vmo = { vm with stack := [] }
    ∧ line = "Operands must be numbers." ++ "\n[line "
        ++ toString (chunk.lines.getD (vm.ip - 1) 0) ++ "] in script" := by
  unfold binStep at h
  split at h
  · exact absurd h (by simp)
  · rw [reportHalt_spec] at h
    obtain ⟨-, h2, h3⟩ := StepOut.halt.inj h
    exact ⟨h2.symm, (Option.some.inj h3).symm⟩
  · exact absurd h (by simp)

theorem step_report {chunk : Chunk} {vm vmo : Vm} {line : String}
    (h : step chunk vm = .halt .runtimeErr vmo (some line)) :
    vmo.stack = [] ∧ ∃ msg, line = msg ++ "\n[line "
      ++ toString (chunk.lines.getD (vmo.ip - 1) 0) ++ "] in script" := by
  unfold step at h
  split at h
  · exact absurd h (by simp)
  · split at h
    · simp at h
    · split at h
      · simp at h
      · split at h
        · simp at h
        · simp at h
    · simp at h
    · simp at h
    · simp at h
    · split at h <;> simp at h
    · obtain ⟨hvm, hline⟩ := cmpStep_report h
      subst hvm
      exact ⟨rfl, "Operands must be numbers.", hline⟩
    · obtain ⟨hvm, hline⟩ := cmpStep_report h
      subst hvm
      exact ⟨rfl, "Operands must be numbers.", hline⟩
    · obtain ⟨hvm, hline⟩ := binStep_report h
      subst hvm
      exact ⟨rfl, "Operands must be numbers.", hline⟩
    · obtain ⟨hvm, hline⟩ := binStep_report h
      subst hvm
      exact ⟨rfl, "Operands must be numbers.", hline⟩
    · obtain ⟨hvm, hline⟩ := binStep_report h
      subst hvm
      exact ⟨rfl, "Operands must be numbers.", hline⟩
    · obtain ⟨hvm, hline⟩ := binStep_report h
      subst hvm
      exact ⟨rfl, "Operands must be numbers.", hline⟩
    · split at h <;> simp at h
    · split at h
      · simp at h
      · rw [reportHalt_spec] at h
        obtain ⟨-, h2, h3⟩ := StepOut.halt.inj h
        subst h2
        exact ⟨rfl, "Operand must be a number.", (Option.some.inj h3).symm⟩
      · simp at h
    · split at h <;> simp at h

/-- C6 counterexample: the tree-walk engine formats a runtime error as
`MESSAGE\n[line L]` -- its `Error::Runtime` display has no
` in script` suffix -- so the claimed report shape
`MESSAGE\n[line L] in script` is wrong for that engine. -/
theorem c6_treewalk_report_counterexample :
    TW.Error.displayRuntime "Operands must be a numbers." 1
      = "Operands must be a numbers.\n[line 1]"
    ∧ TW.Error.displayRuntime "Operands must be a numbers." 1
      ≠ "Operands must be a numbers.\n[line 1] in script" :=
  ⟨rfl, by decide⟩

/-- C6 amended.  In the VM, whenever `run` ends in a Runtime error,
either it is the bare invalid-opcode return (nothing printed, stack
untouched), or the error went through `runtime_error`: the value stack
of the final machine is empty and exactly one report was printed, of
the form `MESSAGE\n[line L] in script` with `L` the line recorded for
the instruction at `ip - 1`.  The tree-walk engine instead renders a
runtime error as `MESSAGE\n[line L]`, never with the ` in script`
suffix. -/
theorem c6_runtime_error_report_amended :
    (∀ (fuel : Nat) (chunk : Chunk) (vm : Vm) (log : List String)
        (outcome : Outcome) (vm2 : Vm) (log2 : List String),
      run fuel chunk vm log = (outcome, vm2, log2) →
      outcome = .runtimeErr →
      log2 = log
      ∨ (vm2.stack = [] ∧ ∃ msg, log2 = log ++ [msg ++ "\n[line "
          ++ toString (chunk.lines.getD (vm2.ip - 1) 0) ++ "] in script"]))
    ∧ (∀ (message : String) (line : Nat),
        TW.Error.displayRuntime message line
          ≠ message ++ "\n[line " ++ toString line ++ "] in script") := by
  constructor
  · intro fuel
    induction fuel with
    | zero =>
      intro chunk vm log outcome vm2 log2 hrun hout
      simp only [run, Prod.mk.injEq] at hrun
      obtain ⟨rfl, rfl, rfl⟩ := hrun
      exact Outcome.noConfusion hout
    | succ n ih =>
      intro chunk vm log outcome vm2 log2 hrun hout
      simp only [run] at hrun
      cases hstep : step chunk vm with
      | again vm1 =>
        simp only [hstep] at hrun
        exact ih chunk vm1 log outcome vm2 log2 hrun hout
      | halt o vmh em =>
        cases em with
        | none =>
          simp only [hstep, Prod.mk.injEq] at hrun
          obtain ⟨rfl, rfl, rfl⟩ := hrun
          exact Or.inl rfl
        | some line =>
          simp only [hstep, Prod.mk.injEq] at hrun
          obtain ⟨rfl, rfl, rfl⟩ := hrun
          subst hout
          obtain ⟨hstack, msg, hline⟩ := step_report hstep
          exact Or.inr ⟨hstack, msg, by rw [hline]⟩
  · intro message line h
    have h2 := congrArg String.length h
    simp only [TW.Error.displayRuntime, String.length_append] at h2
    have e1 : ("]" : String).length = 1 := rfl
    have e2 : ("] in script" : String).length = 11 := rfl
    rw [e1, e2] at h2
    omega

/-- Witness for C6 amended: running the one-instruction chunk `Add`
(line table `[3]`) on a stack holding two `nil`s reports
`Operands must be numbers.` with the ` in script` suffix and resets the
stack; and the tree-walk display differs from the suffixed form at a
concrete message and line. -/
theorem c6_runtime_error_report_amended_witness :
    ((["Operands must be numbers.\n[line 3] in script"] : List String) = []
      ∨ ((Vm.mk 1 []).stack = []
        ∧ ∃ msg, (["Operands must be numbers.\n[line 3] in script"] : List String)
          = [] ++ [msg ++ "\n[line "
              ++ toString ((Chunk.mk [7] [] [3]).lines.getD ((Vm.mk 1 []).ip - 1) 0)
              ++ "] in script"]))
    ∧ TW.Error.displayRuntime "boom" 1
        ≠ "boom" ++ "\n[line " ++ toString 1 ++ "] in script" :=
  ⟨c6_runtime_error_report_amended.1 1 (Chunk.mk [7] [] [3])
      (Vm.mk 0 [.nil, .nil]) [] .runtimeErr (Vm.mk 1 [])
      ["Operands must be numbers.\n[line 3] in script"] (by rfl) rfl,
    c6_runtime_error_report_amended.2 "boom" 1⟩

/-- Enum `TokenType` from `bytecode/src/scanner.rs` lines 5-53. -/
inductive TokenType where
  | LeftParen
  | RightParen
  | LeftBrace
  | RightBrace
  | Comma
  | Dot
  | Minus
  | Plus
  | Semicolon
  | Slash
  | Star
  | Bang
  | BangEqual
  | Equal
  | EqualEqual
  | Greater
  | GreaterEqual
  | Less
  | LessEqual
  | Identifier
  | String
  | Number
  | And
  | Class
  | Else
  | False
  | Fun
  | For
  | If
  | Nil
  | Or
  | Print
  | Return
  | Super
  | This
  | True
  | Var
  | While
  | Error
  | Eof
deriving DecidableEq

/-- Struct `Token` from `bytecode/src/scanner.rs` lines 85-89. -/
structure Token where
  typ : TokenType
  lexeme : String
  line : Nat
deriving DecidableEq

/-- Token the model hands out when the token stream is exhausted; the
source scanner keeps returning `Eof` tokens at the end of input. -/
def eofToken : Token := { typ := .Eof, lexeme := "", line := 0 }

/-- Enum `Precedence` from `bytecode/src/compiler.rs` lines 9-23,
lowest to highest. -/
inductive Precedence where
  | None
  | Assignment
  | Or
  | And
  | Equality
  | Comparison
  | Term
  | Factor
  | Unary
  | Call
  | Primary
deriving DecidableEq

/-- Discriminant of the `repr(u8)` `Precedence` enum; the derived
`PartialOrd`/`Ord` compare along it. -/
def Precedence.toNat : Precedence → Nat
  | .None => 0
  | .Assignment => 1
  | .Or => 2
  | .And => 3
  | .Equality => 4
  | .Comparison => 5
  | .Term => 6
  | .Factor => 7
  | .Unary => 8
  | .Call => 9
  | .Primary => 10

/-- Impl `Add<u8> for Precedence` at offset 1 (`bytecode/src/compiler.rs`
lines 25-34): next-higher precedence.  For `Primary` the source
`expect("must be valid precedence")` would panic; the rule table's
infix precedences never exceed `Factor`, so that arm is unreachable
and is mapped to `Primary` itself. -/
def Precedence.plusOne : Precedence → Precedence
  | .None => .Assignment
  | .Assignment => .Or
  | .Or => .And
  | .And => .Equality
  | .Equality => .Comparison
  | .Comparison => .Term
  | .Term => .Factor
  | .Factor => .Unary
  | .Unary => .Call
  | .Call => .Primary
  | .Primary => .Primary

/-- Names of the prefix parse functions stored in the rule table
(`bytecode/src/compiler.rs`); the source stores `fn` pointers. -/
inductive PrefixRule where
  | grouping
  | number
  | literal
  | unary
deriving DecidableEq

/-- Names of the infix parse functions stored in the rule table; the
only one is `binary`. -/
inductive InfixRule where
  | binary
deriving DecidableEq

/-- Function `Parser::get_rule` (`bytecode/src/compiler.rs` lines
142-192): the Pratt table mapping a token kind to (prefix rule, infix
rule, infix precedence).  The source lists all 41 kinds; every kind not
named below maps to `(None, None, Precedence::None)` explicitly and is
folded into the catch-all here. -/
def get_rule (t : TokenType) :
    Option PrefixRule × Option InfixRule × Precedence :=
  match t with
  | .LeftParen => (some .grouping, none, .None)
  | .Minus => (some .unary, some .binary, .Term)
  | .Plus => (none, some .binary, .Term)
  | .Slash => (none, some .binary, .Factor)
  | .Star => (none, some .binary, .Factor)
  | .Number => (some .number, none, .None)
  | .False => (some .literal, none, .None)
  | .Nil => (some .literal, none, .None)
  | .True => (some .literal, none, .None)
  | _ => (none, none, .None)

/-- Struct `Parser` (`bytecode/src/compiler.rs` lines 36-42): the
scanner is rendered as the list of tokens it has yet to produce. -/
structure Parser where
  tokens : List Token
  previous : Option Token
  current : Option Token
  had_error : Bool
  panic_mode : Bool
deriving DecidableEq

/-- Method `Parser::error_at` (`bytecode/src/compiler.rs` lines 63-83):
in panic mode do nothing, else enter panic mode, print the diagnostic
(not modelled) and set `had_error`. -/
def error_at (p : Parser) (_token : Token) (_message : String) : Parser :=
  if p.panic_mode then p
  else { p with panic_mode := true, had_error := true }

/-- Accessor `Parser::previous` with the source's `expect` rendered
through a default. -/
def previousToken (p : Parser) : Token := p.previous.getD eofToken

/-- Accessor `Parser::current` with the source's `expect` rendered
through a default. -/
def currentToken (p : Parser) : Token := p.current.getD eofToken

/-- Method `Parser::error`: report at the previous token. -/
def error (p : Parser) (message : String) : Parser :=
  error_at p (previousToken p) message

/-- Method `Parser::error_at_current`: report at the current token. -/
def error_at_current (p : Parser) (message : String) : Parser :=
  error_at p (currentToken p) message

/-- Loop inside `Parser::advance` (`bytecode/src/compiler.rs` lines
95-106): pull tokens until one that is not an `Error` token becomes
`current`, reporting each `Error` token's lexeme; an exhausted stream
yields `Eof`. -/
def advanceLoop : List Token → Parser → Parser
  | [], p => { p with tokens := [], current := some eofToken }
  | t :: rest, p =>
    if t.typ = .Error then
      advanceLoop rest (error_at_current { p with tokens := rest, current := some t }
        t.lexeme)
    else { p with tokens := rest, current := some t }

/-- Method `Parser::advance`: shift `current` into `previous`, then
scan forward. -/
def advance (p : Parser) : Parser :=
  advanceLoop p.tokens { p with previous := p.current }

/-- Method `Parser::consume` (`bytecode/src/compiler.rs` lines
108-114). -/
def consume (p : Parser) (typ : TokenType) (message : String) : Parser :=
  if (currentToken p).typ = typ then advance p
  else error_at_current p message

/-- Method `Parser::emit_byte` (`bytecode/src/compiler.rs` lines
116-118): write the byte at the previous token's line. -/
def emit_byte (p : Parser) (chunk : Chunk) (byte : Nat) : Chunk :=
  chunk.write byte (previousToken p).line

/-- Method `Parser::emit_bytes` (lines 120-123). -/
def emit_bytes (p : Parser) (chunk : Chunk) (byte1 byte2 : Nat) : Chunk :=
  emit_byte p (emit_byte p chunk byte1) byte2

/-- Method `Parser::emit_return` (lines 125-127). -/
def emit_return (p : Parser) (chunk : Chunk) : Chunk :=
  emit_byte p chunk OpCode.Return.toByte

/-- Method `Parser::end_compilation` (`bytecode/src/compiler.rs` lines
129-136): unconditionally emit a `Return`; the `print_code` debug
disassembly is not modelled. -/
def end_compilation (p : Parser) (chunk : Chunk) : Chunk :=
  emit_return p chunk

/-- Rule function `Parser::number` (`bytecode/src/compiler.rs` lines
218-222): parse the previous lexeme as a number (the `f64` parse is
stood in by `String.toInt?`; no claim depends on the parsed value),
add it to the constant pool and emit `Constant` with the returned
index. -/
def number (p : Parser) (chunk : Chunk) : Parser × Chunk :=
  let value : Int := ((previousToken p).lexeme.toInt?).getD 0
  let r := chunk.add_constant (.number value)
  (p, emit_bytes p r.1 OpCode.Constant.toByte r.2)

/-- Rule function `Parser::literal` (`bytecode/src/compiler.rs` lines
209-216). -/
def literal (p : Parser) (chunk : Chunk) : Parser × Chunk :=
  match (previousToken p).typ with
  | .False => (p, emit_byte p chunk OpCode.False.toByte)
  | .Nil => (p, emit_byte p chunk OpCode.Nil.toByte)
  | .True => (p, emit_byte p chunk OpCode.True.toByte)
  | _ => (p, chunk)

mutual

/-- Method `Parser::parse_precedence` (`bytecode/src/compiler.rs` lines
235-250): advance, run the prefix rule of the token just consumed (or
report `Expect expression.`), then fold infix rules while the current
token's infix precedence is at least the requested one.  `fuel` bounds
the recursion depth of the model; exhaustion returns the state
unchanged (the source always terminates, so any sufficiently large fuel
is faithful, and the theorems below hold for every fuel). -/
def parse_precedence (fuel : Nat) (precedence : Precedence) (p : Parser)
    (chunk : Chunk) : Parser × Chunk :=
  match fuel with
  | 0 => (p, chunk)
  | fuel + 1 =>
    let p1 := advance p
    match (get_rule (previousToken p1).typ).1 with
    | some pr =>
      let r := applyPrefixRule fuel pr p1 chunk
      infixLoop fuel precedence r.1 r.2
    | none => (error p1 "Expect expression.", chunk)

/-- Dispatch of a stored prefix rule function pointer. -/
def applyPrefixRule (fuel : Nat) (pr : PrefixRule) (p : Parser)
    (chunk : Chunk) : Parser × Chunk :=
  match fuel with
  | 0 => (p, chunk)
  | fuel + 1 =>
    match pr with
    | .grouping => grouping fuel p chunk
    | .number => number p chunk
    | .literal => literal p chunk
    | .unary => unary fuel p chunk

/-- While-loop tail of `parse_precedence` (lines 244-249): as long as
the current token's infix precedence is at least the requested one,
advance and run its infix rule. -/
def infixLoop (fuel : Nat) (precedence : Precedence) (p : Parser)
    (chunk : Chunk) : Parser × Chunk :=
  match fuel with
  | 0 => (p, chunk)
  | fuel + 1 =>
    if precedence.toNat ≤ (get_rule (currentToken p).typ).2.2.toNat then
      let p1 := advance p
      match (get_rule (previousToken p1).typ).2.1 with
      | some .binary =>
        let r := binary fuel p1 chunk
        infixLoop fuel precedence r.1 r.2
      | none => infixLoop fuel precedence p1 chunk
    else (p, chunk)

/-- Rule function `Parser::binary` (`bytecode/src/compiler.rs` lines
194-207): note the operator type, parse the right operand at one
precedence higher (left associativity), then emit the matching
arithmetic opcode. -/
def binary (fuel : Nat) (p : Parser) (chunk : Chunk) : Parser × Chunk :=
  match fuel with
  | 0 => (p, chunk)
  | fuel + 1 =>
    let operatorType := (previousToken p).typ
    let rule := get_rule operatorType
    let r := parse_precedence fuel rule.2.2.plusOne p chunk
    match operatorType with
    | .Plus => (r.1, emit_byte r.1 r.2 OpCode.Add.toByte)
    | .Minus => (r.1, emit_byte r.1 r.2 OpCode.Subtract.toByte)
    | .Star => (r.1, emit_byte r.1 r.2 OpCode.Multiply.toByte)
    | .Slash => (r.1, emit_byte r.1 r.2 OpCode.Divide.toByte)
    | _ => (r.1, r.2)

/-- Rule function `Parser::unary` (`bytecode/src/compiler.rs` lines
224-233): compile the operand at `Unary` precedence, then emit `Negate`
for a `-` operator. -/
def unary (fuel : Nat) (p : Parser) (chunk : Chunk) : Parser × Chunk :=
  match fuel with
  | 0 => (p, chunk)
  | fuel + 1 =>
    let operatorType := (previousToken p).typ
    let r := parse_precedence fuel .Unary p chunk
    if operatorType = .Minus then (r.1, emit_byte r.1 r.2 OpCode.Negate.toByte)
    else (r.1, r.2)

/-- Rule function `Parser::grouping` (`bytecode/src/compiler.rs` lines
252-255). -/
def grouping (fuel : Nat) (p : Parser) (chunk : Chunk) : Parser × Chunk :=
  match fuel with
  | 0 => (p, chunk)
  | fuel + 1 =>
    let r := expression fuel p chunk
    (consume r.1 .RightParen "Expect \x27)\x27 after expression.", r.2)

/-- Method `Parser::expression` (lines 257-259). -/
def expression (fuel : Nat) (p : Parser) (chunk : Chunk) : Parser × Chunk :=
  match fuel with
  | 0 => (p, chunk)
  | fuel + 1 => parse_precedence fuel .Assignment p chunk

end

/-- Function `compile` (`bytecode/src/compiler.rs` lines 262-272):
build the parser over the scanner's token stream, advance once, compile
one expression, consume `Eof`, then `end_compilation` -- which always
appends the final `Return` -- and report success as `!had_error`. -/
def compile (fuel : Nat) (tokens : List Token) (chunk : Chunk) : Bool × Chunk :=
  let p0 : Parser :=
    { tokens := tokens, previous := none, current := none,
      had_error := false, panic_mode := false }
  let p1 := advance p0
  let r := expression fuel p1 chunk
  let p3 := consume r.1 .Eof "Expect end of expression."
  let c3 := end_compilation p3 r.2
  (!p3.had_error, c3)

/-- C10.  Every invocation of `compile` appends a `Return` opcode after
compiling the expression -- also on syntax errors, since
`end_compilation` runs unconditionally -- so for every token stream
(hence every input string) and every starting chunk, the produced chunk
is non-empty and its final byte is the `Return` opcode. -/
theorem c10_compile_final_instruction_return
    (fuel : Nat) (tokens : List Token) (chunk : Chunk) :
    (compile fuel tokens chunk).2.code ≠ []
    ∧ (compile fuel tokens chunk).2.code.getLast? = some OpCode.Return.toByte := by
  simp only [compile, end_compilation, emit_return, emit_byte, Chunk.write]
  constructor
  · simp
  · rw [List.getLast?_concat]

end BC

end Loxide
